import Mathlib

/-!
Shallow embedding of the options-analytics backend (`src/backend/server.py`):
the GEX/DEX exposure aggregators, the payoff-curve (P&L) engine with breakeven
interpolation, the Covered Call backtest branch, and the backtest metrics block.
Python floats are modelled as exact rationals (`ℚ`); the one genuinely real
quantity (a square root inside the Sharpe ratio) lives in `ℝ`.
-/

/-- Python truthiness of the `strategy_type` field: absent (`None`) and the
empty string are falsy, every other string is truthy. -/
def strTruthy : Option String → Bool
  | none => false
  | some s => s != ""

/-- `np.linspace lo hi n`: `n` equally spaced points from `lo` to `hi`
(point `i` is `lo + (hi - lo) * i / (n - 1)`). -/
def linspace (lo hi : ℚ) (n : ℕ) : List ℚ :=
  (List.range n).map (fun (i : ℕ) => lo + (hi - lo) * (i : ℚ) / ((n : ℚ) - 1))

/-- One leg of a strategy, as read from the request body with `leg.get`
defaults (missing fields default to `""` resp. `0`). -/
structure Leg where
  option_type : String
  strike : ℚ
  quantity : ℚ
  price : ℚ
deriving DecidableEq, Repr

/-- Request body of `POST /calculate-strategy-pnl`; `underlying_price`
defaults to `0` and `price_range_pct` to `20` when absent. -/
structure PnlRequest where
  strategy_type : Option String
  underlying_price : ℚ
  legs : List Leg
  price_range_pct : ℚ
deriving DecidableEq, Repr

/-- Success payload of `POST /calculate-strategy-pnl`. -/
structure PnlResponse where
  strategy_type : Option String
  underlying_price : ℚ
  pnl_curve : List (ℚ × ℚ)
  max_profit : ℚ
  max_loss : ℚ
  breakeven_points : List ℚ
  initial_cost : ℚ
deriving DecidableEq, Repr

/-- `option_value_at_expiry` from `calculate_strategy_pnl`: intrinsic value of
an option at expiry; any `option_type` other than `"call"`/`"put"` yields 0. -/
def option_value_at_expiry (option_type : String) (strike underlying : ℚ) : ℚ :=
  if option_type = "call" then max 0 (underlying - strike)
  else if option_type = "put" then max 0 (strike - underlying)
  else 0

/-- The initial cost/credit accumulation loop: Σ price × quantity × 100. -/
def strategy_initial_cost (legs : List Leg) : ℚ :=
  (legs.map (fun leg => leg.price * leg.quantity * 100)).sum

/-- P&L at one price point: `-initial_cost` plus each leg's expiry value
× quantity × 100. -/
def total_pnl (legs : List Leg) (price : ℚ) : ℚ :=
  -strategy_initial_cost legs
    + (legs.map (fun leg =>
        option_value_at_expiry leg.option_type leg.strike price * leg.quantity * 100)).sum

/-- Python `max` over a list (the engine only applies it to the non-empty
50-point curve, so the `[]` default is never reached). -/
def listMax : List ℚ → ℚ
  | [] => 0
  | x :: xs => xs.foldl max x

/-- Python `min` over a list. -/
def listMin : List ℚ → ℚ
  | [] => 0
  | x :: xs => xs.foldl min x

/-- The breakeven scan of `calculate_strategy_pnl`: walk adjacent sample
pairs; on a sign change (crossing or touching zero), linearly interpolate
the root, guarded by `pnl2 - pnl1 != 0`. -/
def find_breakevens : List (ℚ × ℚ) → List ℚ
  | [] => []
  | [_] => []
  | (p1, pnl1) :: (p2, pnl2) :: rest =>
    if (pnl1 ≤ 0 ∧ 0 ≤ pnl2) ∨ (0 ≤ pnl1 ∧ pnl2 ≤ 0) then
      if pnl2 - pnl1 ≠ 0 then
        (p1 + (p2 - p1) * (-pnl1) / (pnl2 - pnl1)) :: find_breakevens ((p2, pnl2) :: rest)
      else
        find_breakevens ((p2, pnl2) :: rest)
    else
      find_breakevens ((p2, pnl2) :: rest)

/-- `calculate_strategy_pnl` (lines 639–730): guard on falsy
`strategy_type` / `underlying_price` / `legs`, then sample the 50-point
curve over ±`price_range_pct`% and derive the scalars. -/
def calculate_strategy_pnl (req : PnlRequest) : Except String PnlResponse :=
  if strTruthy req.strategy_type = false ∨ req.underlying_price = 0 ∨ req.legs = [] then
    .error "Missing required parameters"
  else
    let min_price := req.underlying_price * (1 - req.price_range_pct / 100)
    let max_price := req.underlying_price * (1 + req.price_range_pct / 100)
    let prices := linspace min_price max_price 50
    let pnl_curve := prices.map (fun p => (p, total_pnl req.legs p))
    let pnl_values := pnl_curve.map (fun point => point.2)
    .ok
      { strategy_type := req.strategy_type
        underlying_price := req.underlying_price
        pnl_curve := pnl_curve
        max_profit := listMax pnl_values
        max_loss := listMin pnl_values
        breakeven_points := find_breakevens pnl_curve
        initial_cost := strategy_initial_cost req.legs }

/-- Whether an operation returned an `{error: ...}` payload. -/
def isErr {α : Type} : Except String α → Bool
  | .error _ => true
  | .ok _ => false

/-! ## Spec-side definitions for the payoff engine (refinement comparison) -/

/-- The spec's intrinsic-value rule, stated from its words: `max(0, p − strike)`
for a call and `max(0, strike − p)` for a put (it defines no other case). -/
def spec_intrinsic_value (option_type : String) (strike p : ℚ) : ℚ :=
  if option_type = "call" then max 0 (p - strike) else max 0 (strike - p)

/-- The spec's P&L formula: `−initial_cost + Σ (intrinsic × quantity × 100)`
with `initial_cost = Σ (entry_price × quantity × 100)`. -/
def spec_total_pnl (legs : List Leg) (p : ℚ) : ℚ :=
  -(legs.map (fun leg => leg.price * leg.quantity * 100)).sum
    + (legs.map (fun leg =>
        spec_intrinsic_value leg.option_type leg.strike p * leg.quantity * 100)).sum

/-- The spec's breakeven rule on one adjacent sample pair
`((p1, pnl1), (p2, pnl2))`: on a sign change with `pnl2 ≠ pnl1`, emit the
interpolated root; otherwise (including every flat segment) emit nothing. -/
def spec_breakeven_rule (q : (ℚ × ℚ) × (ℚ × ℚ)) : Option ℚ :=
  if ((q.1.2 ≤ 0 ∧ 0 ≤ q.2.2) ∨ (0 ≤ q.1.2 ∧ q.2.2 ≤ 0)) ∧ q.2.2 ≠ q.1.2 then
    some (q.1.1 + (q.2.1 - q.1.1) * (-q.1.2) / (q.2.2 - q.1.2))
  else none

/-! ## Exposure aggregators (`calculate_gex` / `calculate_dex`, lines 175–260) -/

/-- One entry of the raw chain payload. `greeks`, `open_interest` and `volume`
may be absent; a present `greeks` holds a (possibly empty) field map. -/
structure RawOption where
  strike : ℚ
  option_type : String
  greeks : Option (List (String × ℚ))
  open_interest : Option ℚ
  volume : Option ℚ
deriving DecidableEq, Repr

/-- The raw payload: `options` is absent/falsy (`none`) or the entry list. -/
structure OptionsData where
  options : Option (List RawOption)
deriving DecidableEq, Repr

/-- A row of the GEX frame built from one surviving entry. -/
structure GexRow where
  strike : ℚ
  option_type : String
  gamma : ℚ
  open_interest : ℚ
deriving DecidableEq, Repr

/-- A row of the DEX frame built from one surviving entry. -/
structure DexRow where
  strike : ℚ
  option_type : String
  delta : ℚ
  open_interest : ℚ
deriving DecidableEq, Repr

/-- `option["greeks"][name] if name in option["greeks"] else 0`. -/
def greekField (g : List (String × ℚ)) (name : String) : ℚ :=
  (g.lookup name).getD 0

/-- The greeks filter and row construction of `calculate_gex`: keep entries
whose `greeks` is present and non-empty, defaulting `gamma` and
`open_interest` to 0. -/
def gexRows (l : List RawOption) : List GexRow :=
  l.filterMap (fun o =>
    match o.greeks with
    | some g =>
      if g = [] then none
      else some { strike := o.strike, option_type := o.option_type,
                  gamma := greekField g "gamma",
                  open_interest := o.open_interest.getD 0 }
    | none => none)

/-- The greeks filter and row construction of `calculate_dex`. -/
def dexRows (l : List RawOption) : List DexRow :=
  l.filterMap (fun o =>
    match o.greeks with
    | some g =>
      if g = [] then none
      else some { strike := o.strike, option_type := o.option_type,
                  delta := greekField g "delta",
                  open_interest := o.open_interest.getD 0 }
    | none => none)

/-- Per-strike aggregation payload (`strikes` / value list / grand total). -/
structure ExposureResult where
  strikes : List ℚ
  values : List ℚ
  total : ℚ
deriving DecidableEq, Repr

/-- `1 if x == "call" else -1` — the code's GEX sign column. -/
def gex_sign (option_type : String) : ℚ :=
  if option_type = "call" then 1 else -1

/-- Per-row GEX value: `gamma * open_interest * 100 * gex_sign`. -/
def gexValue (r : GexRow) : ℚ :=
  r.gamma * r.open_interest * 100 * gex_sign r.option_type

/-- Per-row DEX value: `delta * open_interest * 100` (no sign flip). -/
def dexValue (r : DexRow) : ℚ :=
  r.delta * r.open_interest * 100

/-- The distinct group keys of a pandas `groupby`, in ascending order. -/
def strikeKeys {α : Type} (rows : List α) (strikeOf : α → ℚ) : List ℚ :=
  ((rows.map strikeOf).toFinset).sort (· ≤ ·)

/-- `calculate_gex` (lines 175–217): filter on greeks, per-strike grouped sums
of `gamma × OI × 100 × sign`, ascending strikes, grand total. -/
def calculate_gex (options_data : OptionsData) : Except String ExposureResult :=
  match options_data.options with
  | none => .error "No options data found"
  | some l =>
    let rows := gexRows l
    if rows = [] then .error "No valid options with Greeks found"
    else
      let strikes := strikeKeys rows (fun r => r.strike)
      let gex_values :=
        strikes.map (fun k => ((rows.filter (fun r => r.strike = k)).map gexValue).sum)
      .ok { strikes := strikes, values := gex_values, total := gex_values.sum }

/-- `calculate_dex` (lines 219–260): same grouping with `delta × OI × 100`. -/
def calculate_dex (options_data : OptionsData) : Except String ExposureResult :=
  match options_data.options with
  | none => .error "No options data found"
  | some l =>
    let rows := dexRows l
    if rows = [] then .error "No valid options with Greeks found"
    else
      let strikes := strikeKeys rows (fun r => r.strike)
      let dex_values :=
        strikes.map (fun k => ((rows.filter (fun r => r.strike = k)).map dexValue).sum)
      .ok { strikes := strikes, values := dex_values, total := dex_values.sum }

/-- The spec's sign rule: sign(call) = +1, sign(put) = −1 (no other case). -/
def spec_sign (option_type : String) : ℚ :=
  if option_type = "call" then 1 else if option_type = "put" then -1 else 0

/-- The spec's per-contract GEX value. -/
def spec_gex_value (r : GexRow) : ℚ :=
  r.gamma * r.open_interest * 100 * spec_sign r.option_type

/-- Whether a raw entry carries a present, non-empty greeks object. -/
def has_greeks (o : RawOption) : Bool :=
  match o.greeks with
  | some g => g != []
  | none => false

/-- The entries that survive the normalizer's greeks filter. -/
def surviving (d : OptionsData) : List RawOption :=
  (d.options.getD []).filter has_greeks

/-! ## Simplified backtest runner (`run_backtest`, lines 439–620) -/

/-- One row of the daily price history. -/
structure Day where
  date : String
  close : ℚ
deriving DecidableEq, Repr

/-- Python `int()` on a rational: truncation toward zero. -/
def int_trunc (x : ℚ) : ℤ :=
  if 0 ≤ x then ⌊x⌋ else -⌊-x⌋

/-- A `"Sell Call"` ledger entry of the Covered Call branch. -/
structure CCEntry where
  date : String
  action : String
  price : ℚ
  premium : ℚ
  capital : ℚ
deriving DecidableEq, Repr

/-- Outcome of the Covered Call branch: the share count bought at the first
close, the final capital, and the premium ledger. -/
structure CCResult where
  position_size : ℤ
  final_capital : ℚ
  trade_history : List CCEntry
deriving DecidableEq, Repr

/-- The body of the monthly premium-collection loop of the Covered Call
branch: at an index with `i % 30 == 0`, add a 2% premium on that day's close
to the running capital and append a `"Sell Call"` ledger entry. -/
def cc_step (df : List Day) (position_size : ℤ) (acc : ℚ × List CCEntry) (i : ℕ) :
    ℚ × List CCEntry :=
  if i % 30 = 0 then
    let day := df.getD i { date := "", close := 0 }
    let premium := day.close * 0.02 * (position_size : ℚ)
    (acc.1 + premium,
     acc.2 ++ [{ date := day.date, action := "Sell Call", price := day.close,
                 premium := premium,
                 capital := acc.1 + premium + day.close * (position_size : ℚ) }])
  else acc

/-- The `strategy["name"] == "Covered Call"` branch of `run_backtest`
(lines 480–507): buy shares at the first close (falling back to
`int(capital / buy_price)` when 100 shares cost more than the capital),
collect a 2% premium at every index `i ∈ [1, len)` with `i % 30 == 0`,
and value the stock at the last close. -/
def covered_call_branch (df : List Day) (initial_capital : ℚ) : CCResult :=
  match df with
  | [] => { position_size := 0, final_capital := initial_capital, trade_history := [] }
  | first :: rest =>
    let buy_price := first.close
    let investment := buy_price * 100
    let position_size : ℤ :=
      if investment > initial_capital then int_trunc (initial_capital / buy_price) else 100
    let capital := initial_capital - buy_price * (position_size : ℚ)
    let res := (List.range' 1 ((first :: rest).length - 1)).foldl
      (cc_step (first :: rest) position_size) (capital, [])
    let final_stock_value :=
      ((first :: rest).getLast (List.cons_ne_nil first rest)).close * (position_size : ℚ)
    { position_size := position_size, final_capital := res.1 + final_stock_value,
      trade_history := res.2 }

/-- `df["close"].pct_change().dropna()`: the simple percent-change series. -/
def pct_change (closes : List ℚ) : List ℚ :=
  (closes.zip closes.tail).map (fun p => (p.2 - p.1) / p.1)

/-- Arithmetic mean of a list (0 for the empty list, by `ℚ` convention). -/
def listMean (l : List ℚ) : ℚ :=
  l.sum / l.length

/-- Pandas sample variance (`ddof = 1`): `Σ (x − mean)² / (n − 1)`. -/
def sample_var (l : List ℚ) : ℚ :=
  (l.map (fun x => (x - listMean l) ^ 2)).sum / ((l.length : ℚ) - 1)

/-- Pandas `Series.std()`: the square root of the sample variance. -/
noncomputable def sample_std (l : List ℚ) : ℝ :=
  Real.sqrt ((sample_var l : ℚ) : ℝ)

/-- Pandas `cumprod` of a series. -/
def cumprod (l : List ℚ) : List ℚ :=
  (List.scanl (· * ·) 1 l).tail

/-- Pandas `cummax` of a series. -/
def cummax : List ℚ → List ℚ
  | [] => []
  | x :: xs => List.scanl max x xs

/-- The metrics block of `run_backtest`. The field the code calls
`sharpe_ratio` is named `sharpe` here. -/
structure Metrics where
  total_return_pct : ℚ
  annualized_return_pct : ℚ
  sharpe : ℝ
  max_drawdown_pct : ℚ

/-- The post-processing metrics block of `run_backtest` (lines 571–594):
total and annualized return, Sharpe with `risk_free_rate = 0.02`, and the
maximum drawdown over the daily-return series. -/
noncomputable def backtest_metrics (closes : List ℚ)
    (initial_capital final_capital : ℚ) : Metrics :=
  let total_return := (final_capital - initial_capital) / initial_capital * 100
  let daily_returns := pct_change closes
  let days := closes.length
  let annualized_return := total_return * (365 / (days : ℚ))
  let risk_free_rate : ℚ := 0.02
  let sharpe_val : ℝ :=
    ((annualized_return : ℝ) - (risk_free_rate : ℝ))
      / (sample_std daily_returns * Real.sqrt 252)
  let cum_returns := cumprod (daily_returns.map (fun r => 1 + r))
  let running_max := cummax cum_returns
  let drawdown := (cum_returns.zip running_max).map (fun p => p.1 / p.2 - 1)
  let max_drawdown := listMin drawdown * 100
  { total_return_pct := total_return
    annualized_return_pct := annualized_return
    sharpe := sharpe_val
    max_drawdown_pct := max_drawdown }

/-! ## General lemmas -/

theorem foldl_max_init (xs : List ℚ) (a : ℚ) : a ≤ xs.foldl max a := by
  induction xs generalizing a with
  | nil => exact le_refl a
  | cons x xs ih => exact le_trans (le_max_left a x) (ih (max a x))

theorem foldl_max_of_mem (xs : List ℚ) (a v : ℚ) (hv : v ∈ xs) : v ≤ xs.foldl max a := by
  induction xs generalizing a with
  | nil => cases hv
  | cons x xs ih =>
    rcases List.mem_cons.mp hv with h | h
    · subst h
      exact le_trans (le_max_right a v) (foldl_max_init xs (max a v))
    · exact ih (max a x) h

theorem foldl_max_mem (xs : List ℚ) (a : ℚ) : xs.foldl max a = a ∨ xs.foldl max a ∈ xs := by
  induction xs generalizing a with
  | nil => left; rfl
  | cons x xs ih =>
    rcases ih (max a x) with h | h
    · rcases max_choice a x with hax | hax
      · left; rw [List.foldl_cons, h, hax]
      · right; rw [List.foldl_cons, h, hax]; exact List.mem_cons_self x xs
    · right; exact List.mem_cons_of_mem x h

theorem foldl_min_init (xs : List ℚ) (a : ℚ) : xs.foldl min a ≤ a := by
  induction xs generalizing a with
  | nil => exact le_refl a
  | cons x xs ih => exact le_trans (ih (min a x)) (min_le_left a x)

theorem foldl_min_of_mem (xs : List ℚ) (a v : ℚ) (hv : v ∈ xs) : xs.foldl min a ≤ v := by
  induction xs generalizing a with
  | nil => cases hv
  | cons x xs ih =>
    rcases List.mem_cons.mp hv with h | h
    · subst h
      exact le_trans (foldl_min_init xs (min a v)) (min_le_right a v)
    · exact ih (min a x) h

theorem foldl_min_mem (xs : List ℚ) (a : ℚ) : xs.foldl min a = a ∨ xs.foldl min a ∈ xs := by
  induction xs generalizing a with
  | nil => left; rfl
  | cons x xs ih =>
    rcases ih (min a x) with h | h
    · rcases min_choice a x with hax | hax
      · left; rw [List.foldl_cons, h, hax]
      · right; rw [List.foldl_cons, h, hax]; exact List.mem_cons_self x xs
    · right; exact List.mem_cons_of_mem x h

theorem le_listMax (l : List ℚ) (v : ℚ) (hv : v ∈ l) : v ≤ listMax l := by
  match l with
  | [] => cases hv
  | x :: xs =>
    rcases List.mem_cons.mp hv with h | h
    · subst h; exact foldl_max_init xs v
    · exact foldl_max_of_mem xs x v h

theorem listMax_mem (l : List ℚ) (h : l ≠ []) : listMax l ∈ l := by
  match l with
  | [] => exact absurd rfl h
  | x :: xs =>
    rcases foldl_max_mem xs x with h1 | h1
    · rw [listMax, h1]; exact List.mem_cons_self x xs
    · exact List.mem_cons_of_mem x h1

theorem listMin_le (l : List ℚ) (v : ℚ) (hv : v ∈ l) : listMin l ≤ v := by
  match l with
  | [] => cases hv
  | x :: xs =>
    rcases List.mem_cons.mp hv with h | h
    · subst h; exact foldl_min_init xs v
    · exact foldl_min_of_mem xs x v h

theorem listMin_mem (l : List ℚ) (h : l ≠ []) : listMin l ∈ l := by
  match l with
  | [] => exact absurd rfl h
  | x :: xs =>
    rcases foldl_min_mem xs x with h1 | h1
    · rw [listMin, h1]; exact List.mem_cons_self x xs
    · exact List.mem_cons_of_mem x h1

theorem get_pair_mem_zip_tail {α : Type} (l : List α) (i : ℕ) (h : i + 1 < l.length) :
    (l[i], l[i + 1]) ∈ l.zip l.tail := by
  have htl : i < l.tail.length := by
    rw [List.length_tail]; omega
  have hz : i < (l.zip l.tail).length := by
    rw [List.length_zip, List.length_tail]; omega
  have hmem := List.getElem_mem hz
  rw [List.getElem_zip, List.getElem_tail _ _ htl] at hmem
  exact hmem

theorem find_breakevens_eq (curve : List (ℚ × ℚ)) :
    find_breakevens curve = (curve.zip curve.tail).filterMap spec_breakeven_rule := by
  match curve with
  | [] => rfl
  | [_] => rfl
  | (p1, pnl1) :: (p2, pnl2) :: rest =>
    have ih := find_breakevens_eq ((p2, pnl2) :: rest)
    rw [List.tail_cons, List.zip_cons_cons, List.filterMap_cons]
    by_cases h1 : (pnl1 ≤ 0 ∧ 0 ≤ pnl2) ∨ (0 ≤ pnl1 ∧ pnl2 ≤ 0)
    · by_cases h2 : pnl2 - pnl1 ≠ 0
      · have hne : pnl2 ≠ pnl1 := sub_ne_zero.mp h2
        simp only [find_breakevens, if_pos h1, if_pos h2, spec_breakeven_rule,
          if_pos (And.intro h1 hne), ih, List.tail_cons]
      · have heq : pnl2 = pnl1 := by
          have := not_not.mp (fun hc => h2 (sub_ne_zero.mpr hc))
          linarith [sub_eq_zero.mp (not_not.mp (fun hc => h2 hc))]
        simp only [find_breakevens, if_pos h1, if_neg h2, spec_breakeven_rule]
        rw [if_neg (by
          intro hc
          exact hc.2 heq), ih, List.tail_cons]
    · simp only [find_breakevens, if_neg h1, spec_breakeven_rule]
      rw [if_neg (by
        intro hc
        exact h1 hc.1), ih, List.tail_cons]

theorem fiber_sum_eq_total {α : Type} (S : List α) (key v : α → ℚ) :
    ∑ k ∈ (S.map key).toFinset, ((S.filter (fun c => key c = k)).map v).sum
      = (S.map v).sum := by
  induction S with
  | nil => simp
  | cons c S ih =>
    have hsummand : ∀ k : ℚ,
        (((c :: S).filter (fun x => key x = k)).map v).sum
          = (if key c = k then v c else 0)
            + ((S.filter (fun x => key x = k)).map v).sum := by
      intro k
      by_cases h : key c = k <;> simp [List.filter_cons, h]
    rw [List.map_cons, List.toFinset_cons]
    calc ∑ k ∈ insert (key c) (S.map key).toFinset,
            (((c :: S).filter (fun x => key x = k)).map v).sum
        = ∑ k ∈ insert (key c) (S.map key).toFinset,
            ((if key c = k then v c else 0)
              + ((S.filter (fun x => key x = k)).map v).sum) := by
          exact Finset.sum_congr rfl (fun k _ => hsummand k)
      _ = (∑ k ∈ insert (key c) (S.map key).toFinset, (if key c = k then v c else 0))
            + ∑ k ∈ insert (key c) (S.map key).toFinset,
                ((S.filter (fun x => key x = k)).map v).sum := Finset.sum_add_distrib
      _ = v c + ∑ k ∈ (S.map key).toFinset,
                ((S.filter (fun x => key x = k)).map v).sum := by
          congr 1
          · rw [Finset.sum_ite_eq, if_pos (Finset.mem_insert_self _ _)]
          · by_cases hmem : key c ∈ (S.map key).toFinset
            · rw [Finset.insert_eq_self.mpr hmem]
            · rw [Finset.sum_insert hmem]
              have hnil : S.filter (fun x => key x = key c) = [] := by
                rw [List.filter_eq_nil_iff]
                intro a ha hc
                exact hmem (List.mem_toFinset.mpr
                  (List.mem_map.mpr ⟨a, ha, of_decide_eq_true hc⟩))
              rw [hnil]
              simp
      _ = v c + (S.map v).sum := by rw [ih]
      _ = ((c :: S).map v).sum := by rw [List.map_cons, List.sum_cons]

theorem sum_map_sort (T : Finset ℚ) (f : ℚ → ℚ) :
    ((T.sort (· ≤ ·)).map f).sum = ∑ k ∈ T, f k := by
  have hperm : List.Perm ((T.sort (· ≤ ·)).map f) (T.toList.map f) :=
    (Finset.sort_perm_toList (· ≤ ·) T).map f
  rw [hperm.sum_eq, Finset.sum_to_list]

theorem strike_group_total {α : Type} (rows : List α) (strikeOf valOf : α → ℚ) :
    ((strikeKeys rows strikeOf).map
        (fun k => ((rows.filter (fun r => strikeOf r = k)).map valOf).sum)).sum
      = (rows.map valOf).sum := by
  rw [strikeKeys, sum_map_sort, fiber_sum_eq_total]

theorem gexRows_eq_filter (l : List RawOption) :
    gexRows l = (l.filter has_greeks).map (fun o =>
      { strike := o.strike, option_type := o.option_type,
        gamma := greekField (o.greeks.getD []) "gamma",
        open_interest := o.open_interest.getD 0 }) := by
  induction l with
  | nil => rfl
  | cons o l ih =>
    cases hg : o.greeks with
    | none =>
      have h1 : gexRows (o :: l) = gexRows l := by
        simp only [gexRows, List.filterMap_cons, hg]
      have h2 : (o :: l).filter has_greeks = l.filter has_greeks := by
        simp [List.filter_cons, has_greeks, hg]
      rw [h1, h2, ih]
    | some g =>
      by_cases hge : g = []
      · have h1 : gexRows (o :: l) = gexRows l := by
          simp only [gexRows, List.filterMap_cons, hg, if_pos hge]
        have h2 : (o :: l).filter has_greeks = l.filter has_greeks := by
          simp [List.filter_cons, has_greeks, hg, hge]
        rw [h1, h2, ih]
      · have h1 : gexRows (o :: l)
            = { strike := o.strike, option_type := o.option_type,
                gamma := greekField g "gamma",
                open_interest := o.open_interest.getD 0 } :: gexRows l := by
          simp only [gexRows, List.filterMap_cons, hg, if_neg hge]
        have h2 : (o :: l).filter has_greeks = o :: l.filter has_greeks := by
          simp [List.filter_cons, has_greeks, hg, hge]
        rw [h1, h2, List.map_cons, ih, hg, Option.getD_some]

theorem dexRows_eq_filter (l : List RawOption) :
    dexRows l = (l.filter has_greeks).map (fun o =>
      { strike := o.strike, option_type := o.option_type,
        delta := greekField (o.greeks.getD []) "delta",
        open_interest := o.open_interest.getD 0 }) := by
  induction l with
  | nil => rfl
  | cons o l ih =>
    cases hg : o.greeks with
    | none =>
      have h1 : dexRows (o :: l) = dexRows l := by
        simp only [dexRows, List.filterMap_cons, hg]
      have h2 : (o :: l).filter has_greeks = l.filter has_greeks := by
        simp [List.filter_cons, has_greeks, hg]
      rw [h1, h2, ih]
    | some g =>
      by_cases hge : g = []
      · have h1 : dexRows (o :: l) = dexRows l := by
          simp only [dexRows, List.filterMap_cons, hg, if_pos hge]
        have h2 : (o :: l).filter has_greeks = l.filter has_greeks := by
          simp [List.filter_cons, has_greeks, hg, hge]
        rw [h1, h2, ih]
      · have h1 : dexRows (o :: l)
            = { strike := o.strike, option_type := o.option_type,
                delta := greekField g "delta",
                open_interest := o.open_interest.getD 0 } :: dexRows l := by
          simp only [dexRows, List.filterMap_cons, hg, if_neg hge]
        have h2 : (o :: l).filter has_greeks = o :: l.filter has_greeks := by
          simp [List.filter_cons, has_greeks, hg, hge]
        rw [h1, h2, List.map_cons, ih, hg, Option.getD_some]

theorem total_pnl_eq_spec (legs : List Leg)
    (ht : ∀ leg ∈ legs, leg.option_type = "call" ∨ leg.option_type = "put")
    (p : ℚ) : total_pnl legs p = spec_total_pnl legs p := by
  rw [total_pnl, spec_total_pnl, strategy_initial_cost]
  congr 1
  refine congrArg List.sum (List.map_congr_left ?_)
  intro leg hleg
  rcases ht leg hleg with h | h <;>
    simp [option_value_at_expiry, spec_intrinsic_value, h]

theorem cc_foldl_characterization (df : List Day) (ps : ℤ) (l : List ℕ)
    (cap : ℚ) (hist : List CCEntry) :
    (l.foldl (cc_step df ps) (cap, hist)).1
        = cap + ((l.filter (fun i => i % 30 = 0)).map
            (fun i => (df.getD i { date := "", close := 0 }).close * 0.02 * (ps : ℚ))).sum
      ∧ (l.foldl (cc_step df ps) (cap, hist)).2.map (fun e => (e.date, e.premium))
        = hist.map (fun e => (e.date, e.premium))
            ++ (l.filter (fun i => i % 30 = 0)).map
                (fun i => ((df.getD i { date := "", close := 0 }).date,
                  (df.getD i { date := "", close := 0 }).close * 0.02 * (ps : ℚ))) := by
  induction l generalizing cap hist with
  | nil => simp
  | cons i l ih =>
    by_cases hi : i % 30 = 0
    · have hstep : cc_step df ps (cap, hist) i
          = (cap + (df.getD i { date := "", close := 0 }).close * 0.02 * (ps : ℚ),
             hist ++ [{ date := (df.getD i { date := "", close := 0 }).date,
                        action := "Sell Call",
                        price := (df.getD i { date := "", close := 0 }).close,
                        premium := (df.getD i { date := "", close := 0 }).close
                          * 0.02 * (ps : ℚ),
                        capital := cap + (df.getD i { date := "", close := 0 }).close
                            * 0.02 * (ps : ℚ)
                          + (df.getD i { date := "", close := 0 }).close * (ps : ℚ) }]) := by
        simp [cc_step, hi]
      rw [List.foldl_cons, hstep]
      rcases ih (cap + (df.getD i { date := "", close := 0 }).close * 0.02 * (ps : ℚ))
          (hist ++ [{ date := (df.getD i { date := "", close := 0 }).date,
                      action := "Sell Call",
                      price := (df.getD i { date := "", close := 0 }).close,
                      premium := (df.getD i { date := "", close := 0 }).close
                        * 0.02 * (ps : ℚ),
                      capital := cap + (df.getD i { date := "", close := 0 }).close
                          * 0.02 * (ps : ℚ)
                        + (df.getD i { date := "", close := 0 }).close * (ps : ℚ) }])
        with ⟨ihc, ihh⟩
      constructor
      · rw [ihc, List.filter_cons_of_pos (by simpa using hi), List.map_cons, List.sum_cons]
        ring
      · rw [ihh, List.filter_cons_of_pos (by simpa using hi), List.map_cons, List.map_append]
        simp
    · have hstep : cc_step df ps (cap, hist) i = (cap, hist) := by
        simp [cc_step, hi]
      rw [List.foldl_cons, hstep]
      rcases ih cap hist with ⟨ihc, ihh⟩
      constructor
      · rw [ihc, List.filter_cons_of_neg (by simpa using hi)]
      · rw [ihh, List.filter_cons_of_neg (by simpa using hi)]

theorem linspace_getElem (lo hi : ℚ) (n i : ℕ)
    (h : i < (linspace lo hi n).length) :
    (linspace lo hi n)[i] = lo + (hi - lo) * i / ((n : ℚ) - 1) := by
  have hi : i < n := by
    rw [linspace, List.length_map, List.length_range] at h
    exact h
  simp only [linspace, List.getElem_map, List.getElem_range]

theorem find_breakevens_mem_of_rule (curve : List (ℚ × ℚ)) (i : ℕ)
    (h : i + 1 < curve.length) (b : ℚ)
    (hr : spec_breakeven_rule (curve[i], curve[i + 1]) = some b) :
    b ∈ find_breakevens curve := by
  rw [find_breakevens_eq]
  exact List.mem_filterMap.mpr ⟨(curve[i], curve[i + 1]), get_pair_mem_zip_tail curve i h, hr⟩

/-! ## Claim theorems -/

/-- C8: the breakeven scan appends the linearly interpolated root
`p1 + (p2 − p1)·(−pnl1)/(pnl2 − pnl1)` exactly at the adjacent sample pairs
where the P&L changes sign (crosses or touches zero) and `pnl2 ≠ pnl1`;
every flat segment — including two adjacent exactly-zero samples — is
skipped with no entry, no division by zero, and no failure on any input
(`find_breakevens` is total and equals the guarded `spec_breakeven_rule`
filter over all adjacent pairs). -/
theorem breakeven_scan_spec (curve : List (ℚ × ℚ)) :
    find_breakevens curve = (curve.zip curve.tail).filterMap spec_breakeven_rule :=
  find_breakevens_eq curve

/-- C10: a leg whose `option_type` is neither `"call"` nor `"put"` raises no
error: its expiry value is 0 at every price, so it shifts the whole curve
by exactly its entry cost `−price × quantity × 100`, and a request
containing it still succeeds. -/
theorem unknown_option_type_leg (t s : String) (k p P r : ℚ) (leg : Leg)
    (legs : List Leg) (h1 : t ≠ "call") (h2 : t ≠ "put")
    (hleg : leg.option_type = t) (hs : s ≠ "") (hP : P ≠ 0) :
    option_value_at_expiry t k p = 0
      ∧ total_pnl (leg :: legs) p = total_pnl legs p - leg.price * leg.quantity * 100
      ∧ isErr (calculate_strategy_pnl
          { strategy_type := some s, underlying_price := P,
            legs := leg :: legs, price_range_pct := r }) = false := by
  refine ⟨?_, ?_, ?_⟩
  · rw [option_value_at_expiry, if_neg h1, if_neg h2]
  · have hv : option_value_at_expiry leg.option_type leg.strike p = 0 := by
      rw [hleg, option_value_at_expiry, if_neg h1, if_neg h2]
    rw [total_pnl, total_pnl, strategy_initial_cost, strategy_initial_cost,
      List.map_cons, List.sum_cons, List.map_cons, List.sum_cons, hv]
    ring
  · simp [calculate_strategy_pnl, isErr, strTruthy, hs, hP]

/-- C10 witness: instantiated at a concrete `"banana"`-typed leg. -/
theorem unknown_option_type_leg_witness :
    option_value_at_expiry "banana" 100 5 = 0
      ∧ total_pnl [{ option_type := "banana", strike := 100, quantity := 1, price := 2 },
          { option_type := "call", strike := 90, quantity := 1, price := 3 }] 5
        = total_pnl [{ option_type := "call", strike := 90, quantity := 1, price := 3 }] 5
          - (2 : ℚ) * 1 * 100
      ∧ isErr (calculate_strategy_pnl
          { strategy_type := some "custom", underlying_price := 100,
            legs := [{ option_type := "banana", strike := 100, quantity := 1, price := 2 },
              { option_type := "call", strike := 90, quantity := 1, price := 3 }],
            price_range_pct := 20 }) = false :=
  unknown_option_type_leg "banana" "custom" 100 5 100 20
    { option_type := "banana", strike := 100, quantity := 1, price := 2 }
    [{ option_type := "call", strike := 90, quantity := 1, price := 3 }]
    (by decide) (by decide) rfl (by decide) (by norm_num)

/-- C7 counterexample: the claim says `underlying_price ≤ 0` signals
`InvalidRequest`, but at `underlying_price = −5` (non-zero, hence truthy in
Python) the engine computes and returns a success payload. -/
theorem invalid_request_counterexample :
    ((-5 : ℚ) ≤ 0)
      ∧ isErr (calculate_strategy_pnl
          { strategy_type := some "custom", underlying_price := -5,
            legs := [{ option_type := "call", strike := 100, quantity := 1, price := 2 }],
            price_range_pct := 20 }) = false := by
  constructor
  · norm_num
  · simp [calculate_strategy_pnl, isErr, strTruthy]

/-- C7 amended: the guard rejects exactly the Python-falsy inputs — missing
or empty `strategy_type`, `underlying_price` equal to 0 (not every value
≤ 0), or an empty legs list — and performs no computation then; any other
request (including a negative `underlying_price`) is not rejected. -/
theorem invalid_request_guard (req : PnlRequest) :
    isErr (calculate_strategy_pnl req) = true
      ↔ ((req.strategy_type = none ∨ req.strategy_type = some "")
          ∨ req.underlying_price = 0 ∨ req.legs = []) := by
  have htr : strTruthy req.strategy_type = false
      ↔ (req.strategy_type = none ∨ req.strategy_type = some "") := by
    cases h : req.strategy_type with
    | none => simp [strTruthy]
    | some s =>
      simp only [strTruthy]
      constructor
      · intro hb
        right
        have : s = "" := by
          by_contra hc
          simp [hc] at hb
        rw [this]
      · intro hb
        rcases hb with hb | hb
        · cases hb
        · have : s = "" := by injection hb
          simp [this]
  by_cases h : strTruthy req.strategy_type = false ∨ req.underlying_price = 0 ∨ req.legs = []
  · rw [calculate_strategy_pnl, if_pos h]
    simp only [isErr, true_iff]
    rcases h with h | h
    · exact Or.inl (htr.mp h)
    · exact Or.inr h
  · rw [calculate_strategy_pnl, if_neg h]
    simp only [isErr, Bool.false_eq_true, false_iff]
    intro hc
    apply h
    rcases hc with hc | hc
    · exact Or.inl (htr.mpr hc)
    · exact Or.inr hc

/-- C5 amended: the reported Sharpe ratio equals
`(annualized_return_pct − 0.02) / (stdev(daily_returns) × √252)` — the code
subtracts the decimal `risk_free_rate = 0.02`, not `2.0`, from the
percent-valued annualized return. -/
theorem sharpe_formula_amended (closes : List ℚ) (initial_capital final_capital : ℚ) :
    (backtest_metrics closes initial_capital final_capital).sharpe
      = ((((final_capital - initial_capital) / initial_capital * 100
            * (365 / (closes.length : ℚ)) : ℚ) : ℝ) - 0.02)
        / (sample_std (pct_change closes) * Real.sqrt 252) := by
  simp only [backtest_metrics]
  norm_num

/-- C4: for the single long call (strike 100, entry 2, quantity 1) at
underlying 100 with the default ±20% range, the engine's P&L is −200 at
price 100 and 800 at price 110, and the returned breakeven points contain
102 = strike + premium (in the exact-rational model the interpolated root
is 102 exactly, well within the 40/49 step tolerance). -/
theorem single_long_call_example :
    total_pnl [{ option_type := "call", strike := 100, quantity := 1, price := 2 }] 100 = -200
    ∧ total_pnl [{ option_type := "call", strike := 100, quantity := 1, price := 2 }] 110 = 800
    ∧ ∃ res, calculate_strategy_pnl
        { strategy_type := some "long_call", underlying_price := 100,
          legs := [{ option_type := "call", strike := 100, quantity := 1, price := 2 }],
          price_range_pct := 20 } = .ok res
        ∧ ∃ b ∈ res.breakeven_points, |b - 102| ≤ 40 / 49 := by
  refine ⟨?_, ?_, ?_⟩
  · simp [total_pnl, strategy_initial_cost, option_value_at_expiry]
    norm_num
  · simp [total_pnl, strategy_initial_cost, option_value_at_expiry]
    rw [max_eq_right (by norm_num : (0:ℚ) ≤ 110 - 100)]
    norm_num
  · have hguard : ¬ (strTruthy (some "long_call") = false ∨ (100 : ℚ) = 0
        ∨ ([{ option_type := "call", strike := 100, quantity := 1, price := 2 }] : List Leg) = []) := by
      push_neg
      refine ⟨by simp [strTruthy], by norm_num, by simp⟩
    rw [calculate_strategy_pnl, if_neg hguard]
    refine ⟨_, rfl, ?_⟩
    show ∃ b ∈ find_breakevens _, |b - 102| ≤ 40 / 49
    set cv : List (ℚ × ℚ) := (linspace ((100 : ℚ) * (1 - 20 / 100)) ((100 : ℚ) * (1 + 20 / 100)) 50).map
      (fun p => (p, total_pnl [{ option_type := "call", strike := 100, quantity := 1, price := 2 }] p))
      with hc
    have hlen : cv.length = 50 := by
      rw [hc, List.length_map, linspace, List.length_map, List.length_range]
    have hlt : (26 : ℕ) + 1 < cv.length := by rw [hlen]; norm_num
    have h26q : (linspace ((100 : ℚ) * (1 - 20 / 100)) ((100 : ℚ) * (1 + 20 / 100)) 50)[26]
        = 4960 / 49 := by
      rw [linspace_getElem]
      norm_num
    have h27q : (linspace ((100 : ℚ) * (1 - 20 / 100)) ((100 : ℚ) * (1 + 20 / 100)) 50)[27]
        = 5000 / 49 := by
      rw [linspace_getElem]
      norm_num
    have hpnl26 : total_pnl [{ option_type := "call", strike := 100, quantity := 1, price := 2 }]
        (4960 / 49) = -3800 / 49 := by
      simp [total_pnl, strategy_initial_cost, option_value_at_expiry]
      rw [max_eq_right (by norm_num : (0:ℚ) ≤ 4960 / 49 - 100)]
      norm_num
    have hpnl27 : total_pnl [{ option_type := "call", strike := 100, quantity := 1, price := 2 }]
        (5000 / 49) = 200 / 49 := by
      simp [total_pnl, strategy_initial_cost, option_value_at_expiry]
      rw [max_eq_right (by norm_num : (0:ℚ) ≤ 5000 / 49 - 100)]
      norm_num
    have h26 : cv[26] = (4960 / 49, -3800 / 49) := by
      simp only [hc, List.getElem_map]
      rw [h26q, hpnl26]
    have h27 : cv[27] = (5000 / 49, 200 / 49) := by
      simp only [hc, List.getElem_map]
      rw [h27q, hpnl27]
    refine ⟨102, ?_, by norm_num⟩
    refine find_breakevens_mem_of_rule cv 26 hlt 102 ?_
    have h27x : cv[26 + 1] = (5000 / 49, 200 / 49) := h27
    rw [h26, h27x, spec_breakeven_rule, if_pos]
    · norm_num
    · constructor
      · left
        constructor <;> norm_num
      · norm_num

/-- C1: for a valid request (truthy strategy type, positive underlying price,
non-empty legs, each leg a call or a put) the engine returns 50 samples at the
equally spaced prices `lo + (hi − lo)·i/49` spanning
`[P(1 − r/100), P(1 + r/100)]`, the P&L at every sampled price follows the
spec's formula (`−initial_cost + Σ intrinsic × quantity × 100`),
`initial_cost = Σ entry_price × quantity × 100`, and `max_profit`/`max_loss`
are the maximum/minimum of the sampled P&L values. -/
theorem pnl_curve_sampling (req : PnlRequest)
    (hs : strTruthy req.strategy_type = true)
    (hp : 0 < req.underlying_price)
    (hl : req.legs ≠ [])
    (ht : ∀ leg ∈ req.legs, leg.option_type = "call" ∨ leg.option_type = "put") :
    ∃ res, calculate_strategy_pnl req = .ok res
      ∧ res.pnl_curve.length = 50
      ∧ res.pnl_curve = (List.range 50).map (fun (i : ℕ) =>
          (req.underlying_price * (1 - req.price_range_pct / 100)
              + (req.underlying_price * (1 + req.price_range_pct / 100)
                  - req.underlying_price * (1 - req.price_range_pct / 100)) * (i : ℚ) / 49,
            spec_total_pnl req.legs
              (req.underlying_price * (1 - req.price_range_pct / 100)
                + (req.underlying_price * (1 + req.price_range_pct / 100)
                    - req.underlying_price * (1 - req.price_range_pct / 100)) * (i : ℚ) / 49)))
      ∧ res.initial_cost = (req.legs.map (fun leg => leg.price * leg.quantity * 100)).sum
      ∧ res.max_profit ∈ res.pnl_curve.map (fun q => q.2)
      ∧ (∀ v ∈ res.pnl_curve.map (fun q => q.2), v ≤ res.max_profit)
      ∧ res.max_loss ∈ res.pnl_curve.map (fun q => q.2)
      ∧ (∀ v ∈ res.pnl_curve.map (fun q => q.2), res.max_loss ≤ v) := by
  have hguard : ¬ (strTruthy req.strategy_type = false ∨ req.underlying_price = 0
      ∨ req.legs = []) := by
    push_neg
    exact ⟨by simp [hs], ne_of_gt hp, hl⟩
  rw [calculate_strategy_pnl, if_neg hguard]
  have hcurvelen : ((linspace (req.underlying_price * (1 - req.price_range_pct / 100))
      (req.underlying_price * (1 + req.price_range_pct / 100)) 50).map
        (fun p => (p, total_pnl req.legs p))).length = 50 := by
    rw [List.length_map, linspace, List.length_map, List.length_range]
  refine ⟨_, rfl, ?_, ?_, ?_, ?_, ?_, ?_, ?_⟩
  · exact hcurvelen
  · dsimp only
    rw [linspace, List.map_map]
    refine List.map_congr_left ?_
    intro i _
    simp only [Function.comp]
    rw [total_pnl_eq_spec req.legs ht]
    norm_num
  · rfl
  · dsimp only
    rw [List.map_map]
    apply listMax_mem
    intro hnil
    have := congrArg List.length hnil
    rw [List.length_map] at this
    rw [linspace, List.length_map, List.length_range] at this
    exact absurd this (by norm_num)
  · dsimp only
    intro v hv
    rw [List.map_map] at hv
    exact le_listMax _ v hv
  · dsimp only
    rw [List.map_map]
    apply listMin_mem
    intro hnil
    have := congrArg List.length hnil
    rw [List.length_map] at this
    rw [linspace, List.length_map, List.length_range] at this
    exact absurd this (by norm_num)
  · dsimp only
    intro v hv
    rw [List.map_map] at hv
    exact listMin_le _ v hv

/-- C1 witness: the theorem instantiated at a concrete single-leg request. -/
theorem pnl_curve_sampling_witness :
    ∃ res, calculate_strategy_pnl
        { strategy_type := some "long_call", underlying_price := 100,
          legs := [{ option_type := "call", strike := 100, quantity := 1, price := 2 }],
          price_range_pct := 20 } = .ok res
      ∧ res.pnl_curve.length = 50
      ∧ res.pnl_curve = (List.range 50).map (fun (i : ℕ) =>
          ((100 : ℚ) * (1 - 20 / 100)
              + ((100 : ℚ) * (1 + 20 / 100) - (100 : ℚ) * (1 - 20 / 100)) * (i : ℚ) / 49,
            spec_total_pnl [{ option_type := "call", strike := 100, quantity := 1, price := 2 }]
              ((100 : ℚ) * (1 - 20 / 100)
                + ((100 : ℚ) * (1 + 20 / 100) - (100 : ℚ) * (1 - 20 / 100)) * (i : ℚ) / 49)))
      ∧ res.initial_cost
          = (([{ option_type := "call", strike := 100, quantity := 1, price := 2 }] : List Leg).map
              (fun leg => leg.price * leg.quantity * 100)).sum
      ∧ res.max_profit ∈ res.pnl_curve.map (fun q => q.2)
      ∧ (∀ v ∈ res.pnl_curve.map (fun q => q.2), v ≤ res.max_profit)
      ∧ res.max_loss ∈ res.pnl_curve.map (fun q => q.2)
      ∧ (∀ v ∈ res.pnl_curve.map (fun q => q.2), res.max_loss ≤ v) :=
  pnl_curve_sampling
    { strategy_type := some "long_call", underlying_price := 100,
      legs := [{ option_type := "call", strike := 100, quantity := 1, price := 2 }],
      price_range_pct := 20 }
    (by rfl) (by norm_num) (by simp) (by simp)

/-- C2: on any payload whose surviving contracts are non-empty and typed
call/put, GEX returns strictly ascending distinct strikes, pairs each strike
with the sum over its contracts of `gamma × OI × 100 × sign` (sign(call)=+1,
sign(put)=−1 per the spec's rule), and the total equals both the sum of the
per-strike values and the sum over every surviving contract (none dropped or
double-counted). -/
theorem gex_aggregation (l : List RawOption)
    (hne : gexRows l ≠ [])
    (ht : ∀ r ∈ gexRows l, r.option_type = "call" ∨ r.option_type = "put") :
    ∃ res, calculate_gex { options := some l } = .ok res
      ∧ List.Sorted (· < ·) res.strikes
      ∧ (∀ k, k ∈ res.strikes ↔ ∃ r ∈ gexRows l, r.strike = k)
      ∧ res.values = res.strikes.map
          (fun k => (((gexRows l).filter (fun r => r.strike = k)).map spec_gex_value).sum)
      ∧ res.total = res.values.sum
      ∧ res.total = ((gexRows l).map spec_gex_value).sum := by
  have hspec : ∀ r ∈ gexRows l, gexValue r = spec_gex_value r := by
    intro r hr
    rcases ht r hr with h | h <;>
      simp [gexValue, spec_gex_value, gex_sign, spec_sign, h]
  have hstep : calculate_gex { options := some l }
      = (if gexRows l = [] then .error "No valid options with Greeks found"
         else .ok { strikes := strikeKeys (gexRows l) (fun r => r.strike),
                    values := (strikeKeys (gexRows l) (fun r => r.strike)).map
                      (fun k => (((gexRows l).filter (fun r => r.strike = k)).map gexValue).sum),
                    total := ((strikeKeys (gexRows l) (fun r => r.strike)).map
                      (fun k => (((gexRows l).filter
                        (fun r => r.strike = k)).map gexValue).sum)).sum }) := rfl
  rw [hstep, if_neg hne]
  refine ⟨_, rfl, ?_, ?_, ?_, rfl, ?_⟩
  · dsimp only
    rw [strikeKeys]
    exact Finset.sort_sorted_lt _
  · intro k
    dsimp only
    rw [strikeKeys]
    simp [Finset.mem_sort, List.mem_toFinset, List.mem_map]
  · dsimp only
    refine List.map_congr_left ?_
    intro k _
    refine congrArg List.sum (List.map_congr_left ?_)
    intro r hr
    exact hspec r (List.mem_of_mem_filter hr)
  · dsimp only
    rw [strike_group_total (gexRows l) (fun r => r.strike) gexValue]
    exact congrArg List.sum (List.map_congr_left hspec)

/-- C2 witness: two contracts at strikes 100 and 95. -/
theorem gex_aggregation_witness :
    ∃ res, calculate_gex { options := some (
        [{ strike := 100, option_type := "call",
           greeks := some [("gamma", 1 / 100)], open_interest := some 10, volume := none },
         { strike := 95, option_type := "put",
           greeks := some [("gamma", 2 / 100)], open_interest := some 5, volume := none }]) }
      = .ok res
      ∧ List.Sorted (· < ·) res.strikes
      ∧ (∀ k, k ∈ res.strikes ↔ ∃ r ∈ gexRows
          [{ strike := 100, option_type := "call",
             greeks := some [("gamma", 1 / 100)], open_interest := some 10, volume := none },
           { strike := 95, option_type := "put",
             greeks := some [("gamma", 2 / 100)], open_interest := some 5, volume := none }],
          r.strike = k)
      ∧ res.values = res.strikes.map
          (fun k => (((gexRows
            [{ strike := 100, option_type := "call",
               greeks := some [("gamma", 1 / 100)], open_interest := some 10, volume := none },
             { strike := 95, option_type := "put",
               greeks := some [("gamma", 2 / 100)], open_interest := some 5, volume := none }]).filter
            (fun r => r.strike = k)).map spec_gex_value).sum)
      ∧ res.total = res.values.sum
      ∧ res.total = ((gexRows
          [{ strike := 100, option_type := "call",
             greeks := some [("gamma", 1 / 100)], open_interest := some 10, volume := none },
           { strike := 95, option_type := "put",
             greeks := some [("gamma", 2 / 100)], open_interest := some 5, volume := none }]).map
          spec_gex_value).sum :=
  gex_aggregation
    [{ strike := 100, option_type := "call",
       greeks := some [("gamma", 1 / 100)], open_interest := some 10, volume := none },
     { strike := 95, option_type := "put",
       greeks := some [("gamma", 2 / 100)], open_interest := some 5, volume := none }]
    (by simp [gexRows]) (by simp [gexRows])

/-- C3: on any payload whose surviving contracts are non-empty, DEX returns
strictly ascending distinct strikes, pairs each strike with the sum over its
contracts of `delta × OI × 100` with no sign flip, and the total equals both
the sum of the per-strike values and the sum over every surviving
contract. -/
theorem dex_aggregation (l : List RawOption) (hne : dexRows l ≠ []) :
    ∃ res, calculate_dex { options := some l } = .ok res
      ∧ List.Sorted (· < ·) res.strikes
      ∧ (∀ k, k ∈ res.strikes ↔ ∃ r ∈ dexRows l, r.strike = k)
      ∧ res.values = res.strikes.map
          (fun k => (((dexRows l).filter (fun r => r.strike = k)).map
            (fun r => r.delta * r.open_interest * 100)).sum)
      ∧ res.total = res.values.sum
      ∧ res.total = ((dexRows l).map (fun r => r.delta * r.open_interest * 100)).sum := by
  have hstep : calculate_dex { options := some l }
      = (if dexRows l = [] then .error "No valid options with Greeks found"
         else .ok { strikes := strikeKeys (dexRows l) (fun r => r.strike),
                    values := (strikeKeys (dexRows l) (fun r => r.strike)).map
                      (fun k => (((dexRows l).filter (fun r => r.strike = k)).map dexValue).sum),
                    total := ((strikeKeys (dexRows l) (fun r => r.strike)).map
                      (fun k => (((dexRows l).filter
                        (fun r => r.strike = k)).map dexValue).sum)).sum }) := rfl
  rw [hstep, if_neg hne]
  refine ⟨_, rfl, ?_, ?_, rfl, rfl, ?_⟩
  · dsimp only
    rw [strikeKeys]
    exact Finset.sort_sorted_lt _
  · intro k
    dsimp only
    rw [strikeKeys]
    simp [Finset.mem_sort, List.mem_toFinset, List.mem_map]
  · dsimp only
    exact strike_group_total (dexRows l) (fun r => r.strike) dexValue

/-- C3 witness: two contracts at strikes 100 and 95. -/
theorem dex_aggregation_witness :
    ∃ res, calculate_dex { options := some (
        [{ strike := 100, option_type := "call",
           greeks := some [("delta", 1 / 2)], open_interest := some 10, volume := none },
         { strike := 95, option_type := "put",
           greeks := some [("delta", -1 / 2)], open_interest := some 5, volume := none }]) }
      = .ok res
      ∧ List.Sorted (· < ·) res.strikes
      ∧ (∀ k, k ∈ res.strikes ↔ ∃ r ∈ dexRows
          [{ strike := 100, option_type := "call",
             greeks := some [("delta", 1 / 2)], open_interest := some 10, volume := none },
           { strike := 95, option_type := "put",
             greeks := some [("delta", -1 / 2)], open_interest := some 5, volume := none }],
          r.strike = k)
      ∧ res.values = res.strikes.map
          (fun k => (((dexRows
            [{ strike := 100, option_type := "call",
               greeks := some [("delta", 1 / 2)], open_interest := some 10, volume := none },
             { strike := 95, option_type := "put",
               greeks := some [("delta", -1 / 2)], open_interest := some 5, volume := none }]).filter
            (fun r => r.strike = k)).map
              (fun r => r.delta * r.open_interest * 100)).sum)
      ∧ res.total = res.values.sum
      ∧ res.total = ((dexRows
          [{ strike := 100, option_type := "call",
             greeks := some [("delta", 1 / 2)], open_interest := some 10, volume := none },
           { strike := 95, option_type := "put",
             greeks := some [("delta", -1 / 2)], open_interest := some 5, volume := none }]).map
          (fun r => r.delta * r.open_interest * 100)).sum :=
  dex_aggregation
    [{ strike := 100, option_type := "call",
       greeks := some [("delta", 1 / 2)], open_interest := some 10, volume := none },
     { strike := 95, option_type := "put",
       greeks := some [("delta", -1 / 2)], open_interest := some 5, volume := none }]
    (by simp [dexRows])

/-- C9: the normalizer keeps exactly the entries with a present, non-empty
greeks object (shown for both aggregators), defaults missing `gamma`/`delta`
and `open_interest` fields to 0 via the row construction, and returns an
error payload exactly when no entry survives (including an absent or empty
raw chain). -/
theorem normalizer_filter_errors (d : OptionsData) :
    (isErr (calculate_gex d) = true ↔ surviving d = [])
    ∧ (isErr (calculate_dex d) = true ↔ surviving d = [])
    ∧ gexRows (d.options.getD []) = (surviving d).map (fun o =>
        { strike := o.strike, option_type := o.option_type,
          gamma := greekField (o.greeks.getD []) "gamma",
          open_interest := o.open_interest.getD 0 })
    ∧ dexRows (d.options.getD []) = (surviving d).map (fun o =>
        { strike := o.strike, option_type := o.option_type,
          delta := greekField (o.greeks.getD []) "delta",
          open_interest := o.open_interest.getD 0 }) := by
  refine ⟨?_, ?_, gexRows_eq_filter _, dexRows_eq_filter _⟩
  · cases hopt : d.options with
    | none => simp [calculate_gex, hopt, isErr, surviving]
    | some l =>
      have hsurv : surviving d = l.filter has_greeks := by
        simp [surviving, hopt]
      by_cases hrows : gexRows l = []
      · have hfil : l.filter has_greeks = [] := by
          have h1 := gexRows_eq_filter l
          rw [hrows] at h1
          exact List.map_eq_nil_iff.mp h1.symm
        simp [calculate_gex, hopt, isErr, hrows, hsurv, hfil]
      · have hfil : l.filter has_greeks ≠ [] := by
          intro hcon
          apply hrows
          rw [gexRows_eq_filter, hcon, List.map_nil]
        simp [calculate_gex, hopt, isErr, hrows, hsurv, hfil]
  · cases hopt : d.options with
    | none => simp [calculate_dex, hopt, isErr, surviving]
    | some l =>
      have hsurv : surviving d = l.filter has_greeks := by
        simp [surviving, hopt]
      by_cases hrows : dexRows l = []
      · have hfil : l.filter has_greeks = [] := by
          have h1 := dexRows_eq_filter l
          rw [hrows] at h1
          exact List.map_eq_nil_iff.mp h1.symm
        simp [calculate_dex, hopt, isErr, hrows, hsurv, hfil]
      · have hfil : l.filter has_greeks ≠ [] := by
          intro hcon
          apply hrows
          rw [dexRows_eq_filter, hcon, List.map_nil]
        simp [calculate_dex, hopt, isErr, hrows, hsurv, hfil]

/-- C6: on a non-empty price history with non-negative capital and a positive
first close, the Covered Call branch buys `⌊capital / first_close⌋` shares
whenever 100 shares cost more than the capital, credits a 2% premium on that
day's close per share at every 30th index (recording one ledger entry per
event, with matching date and premium), and reports
`final_capital = cash + shares × last_close`. -/
theorem covered_call_accounting (d : Day) (rest : List Day) (initial_capital : ℚ)
    (h0 : 0 ≤ initial_capital) (hcl : 0 < d.close) :
    (d.close * 100 > initial_capital →
        (covered_call_branch (d :: rest) initial_capital).position_size
          = ⌊initial_capital / d.close⌋)
    ∧ (covered_call_branch (d :: rest) initial_capital).final_capital
        = (initial_capital
            - d.close * ((covered_call_branch (d :: rest) initial_capital).position_size : ℚ)
            + (((List.range' 1 ((d :: rest).length - 1)).filter (fun i => i % 30 = 0)).map
                (fun i => ((d :: rest).getD i { date := "", close := 0 }).close * 0.02
                  * ((covered_call_branch (d :: rest) initial_capital).position_size : ℚ))).sum)
          + ((d :: rest).getLast (List.cons_ne_nil d rest)).close
              * ((covered_call_branch (d :: rest) initial_capital).position_size : ℚ)
    ∧ (covered_call_branch (d :: rest) initial_capital).trade_history.map
          (fun e => (e.date, e.premium))
        = ((List.range' 1 ((d :: rest).length - 1)).filter (fun i => i % 30 = 0)).map
            (fun i => (((d :: rest).getD i { date := "", close := 0 }).date,
              ((d :: rest).getD i { date := "", close := 0 }).close * 0.02
                * ((covered_call_branch (d :: rest) initial_capital).position_size : ℚ))) := by
  have hps : (covered_call_branch (d :: rest) initial_capital).position_size
      = (if d.close * 100 > initial_capital
          then int_trunc (initial_capital / d.close) else 100) := rfl
  rcases cc_foldl_characterization (d :: rest)
      (if d.close * 100 > initial_capital
        then int_trunc (initial_capital / d.close) else 100)
      (List.range' 1 ((d :: rest).length - 1))
      (initial_capital - d.close * ((if d.close * 100 > initial_capital
        then int_trunc (initial_capital / d.close) else 100 : ℤ) : ℚ)) []
    with ⟨hcap, hhist⟩
  refine ⟨?_, ?_, ?_⟩
  · intro hgt
    rw [hps, if_pos hgt, int_trunc, if_pos (div_nonneg h0 (le_of_lt hcl))]
  · show ((List.range' 1 ((d :: rest).length - 1)).foldl
        (cc_step (d :: rest) _) (initial_capital - d.close * _, [])).1
          + ((d :: rest).getLast (List.cons_ne_nil d rest)).close * _ = _
    rw [hcap]
    simp only [hps]
  · show ((List.range' 1 ((d :: rest).length - 1)).foldl
        (cc_step (d :: rest) _) (initial_capital - d.close * _, [])).2.map
          (fun e => (e.date, e.premium)) = _
    rw [hhist]
    simp only [hps, List.map_nil, List.nil_append]

/-- C6 witness: a two-day history where 100 shares are unaffordable. -/
theorem covered_call_accounting_witness :
    ((50 : ℚ) * 100 > 100 →
        (covered_call_branch [{ date := "2024-01-02", close := 50 },
          { date := "2024-01-03", close := 60 }] 100).position_size
          = ⌊(100 : ℚ) / (50 : ℚ)⌋)
    ∧ (covered_call_branch [{ date := "2024-01-02", close := 50 },
          { date := "2024-01-03", close := 60 }] 100).final_capital
        = ((100 : ℚ)
            - (50 : ℚ) * ((covered_call_branch [{ date := "2024-01-02", close := 50 },
                { date := "2024-01-03", close := 60 }] 100).position_size : ℚ)
            + (((List.range' 1 (([{ date := "2024-01-02", close := 50 },
                  { date := "2024-01-03", close := 60 }] : List Day).length - 1)).filter
                  (fun i => i % 30 = 0)).map
                (fun i => (([{ date := "2024-01-02", close := 50 },
                    { date := "2024-01-03", close := 60 }] : List Day).getD i
                      { date := "", close := 0 }).close * 0.02
                  * ((covered_call_branch [{ date := "2024-01-02", close := 50 },
                      { date := "2024-01-03", close := 60 }] 100).position_size : ℚ))).sum)
          + (([{ date := "2024-01-02", close := 50 },
              { date := "2024-01-03", close := 60 }] : List Day).getLast
                (List.cons_ne_nil _ _)).close
              * ((covered_call_branch [{ date := "2024-01-02", close := 50 },
                  { date := "2024-01-03", close := 60 }] 100).position_size : ℚ)
    ∧ (covered_call_branch [{ date := "2024-01-02", close := 50 },
          { date := "2024-01-03", close := 60 }] 100).trade_history.map
          (fun e => (e.date, e.premium))
        = ((List.range' 1 (([{ date := "2024-01-02", close := 50 },
              { date := "2024-01-03", close := 60 }] : List Day).length - 1)).filter
              (fun i => i % 30 = 0)).map
            (fun i => ((([{ date := "2024-01-02", close := 50 },
                  { date := "2024-01-03", close := 60 }] : List Day).getD i
                    { date := "", close := 0 }).date,
              (([{ date := "2024-01-02", close := 50 },
                  { date := "2024-01-03", close := 60 }] : List Day).getD i
                    { date := "", close := 0 }).close * 0.02
                * ((covered_call_branch [{ date := "2024-01-02", close := 50 },
                    { date := "2024-01-03", close := 60 }] 100).position_size : ℚ))) :=
  covered_call_accounting { date := "2024-01-02", close := 50 }
    [{ date := "2024-01-03", close := 60 }] 100 (by norm_num) (by norm_num)

/-- C5 counterexample: on the concrete three-day history
`[100, 110, 100]` with capitals 10000 → 11000, the reported Sharpe differs
from the claim's `(annualized_return_pct − 2.0) / (stdev × √252)` — the code
subtracts 0.02, not 2.0, and the denominator is non-zero here. -/
theorem sharpe_riskfree_counterexample :
    (backtest_metrics [100, 110, 100] 10000 11000).sharpe
      ≠ (((backtest_metrics [100, 110, 100] 10000 11000).annualized_return_pct : ℝ) - 2.0)
        / (sample_std (pct_change [100, 110, 100]) * Real.sqrt 252) := by
  have hvar : sample_var (pct_change [100, 110, 100]) = 441 / 24200 := by
    norm_num [pct_change, sample_var, listMean, List.zip_cons_cons, List.zip_nil_right]
  have hstd : sample_std (pct_change [100, 110, 100]) ≠ 0 := by
    rw [sample_std, hvar]
    rw [Real.sqrt_ne_zero']
    norm_num
  have hD : sample_std (pct_change [100, 110, 100]) * Real.sqrt 252 ≠ 0 :=
    mul_ne_zero hstd (by positivity)
  intro h
  simp only [backtest_metrics] at h
  have h2 := congrArg
    (fun x => x * (sample_std (pct_change [100, 110, 100]) * Real.sqrt 252)) h
  simp only at h2
  rw [div_mul_cancel₀ _ hD, div_mul_cancel₀ _ hD] at h2
  have h3 : ((0.02 : ℚ) : ℝ) = 2.0 := by linarith
  norm_num at h3
